import Mathlib

/-!
# torch.rb: `ext/torch/wrap_outputs.h`

A shallow embedding of the `wrap` overload set, which marshals values returned by the native
tensor library into Ruby `VALUE`s through Rice.

* The native inputs (`Tensor`, `Scalar`, `ScalarType`, `QScheme`, `double`, `int64_t`) are
  carried, never inspected, by the header; they are embedded as plain data.
* Rice and the Ruby runtime are not part of the header.  They are embedded as a host that
  records every primitive the header calls (`To_Ruby<T>::convert`, `Array::push`) in a call
  log and that may raise at any of these calls.
* Every `wrap` overload is one definition, written statement by statement after its C++ body.
-/

namespace TorchRb

/-! ## Native values -/

/-- A `torch::Tensor`: a reference-counted handle; `impl` is the identity of the tensor
implementation (storage and metadata) the handle points to.  Copying a `Tensor` copies the
handle, not the tensor it points to. -/
structure Tensor where
  impl : Nat
  deriving DecidableEq

/-- A `torch::Scalar`, a tagged native number.  The header never looks inside it. -/
structure Scalar where
  repr : Nat
  deriving DecidableEq

/-- A `torch::ScalarType`, an enumeration, given by its ordinal. -/
structure ScalarType where
  ordinal : Nat
  deriving DecidableEq

/-- A `torch::QScheme`, an enumeration, given by its ordinal. -/
structure QScheme where
  ordinal : Nat
  deriving DecidableEq

/-- A C++ `double`, carried as its 64-bit pattern.  The header performs no arithmetic and no
comparison on it. -/
structure Double where
  bits : Nat
  deriving DecidableEq

/-- A `torch::TensorList` (`c10::ArrayRef<at::Tensor>`): the tensors in iteration order. -/
abbrev TensorList := List Tensor

/-- A native value some `To_Ruby<T>::convert` is called on.  An `int64_t` is carried as the
integer it denotes; the header does no arithmetic on it. -/
inductive Arg where
  | bool (x : Bool)
  | int64_t (x : Int)
  | double (x : Double)
  | Tensor (x : Tensor)
  | Scalar (x : Scalar)
  | ScalarType (x : ScalarType)
  | QScheme (x : QScheme)
  deriving DecidableEq

/-- An `Arg` of class type (converted to a wrapped handle), as against a primitive that is
boxed by value. -/
def Arg.isObject : Arg → Bool
  | .Tensor _ => true
  | .Scalar _ => true
  | .ScalarType _ => true
  | .QScheme _ => true
  | .bool _ => false
  | .int64_t _ => false
  | .double _ => false

/-! ## The host runtime -/

/-- Modelled from the spec: the Ruby `VALUE` as far as the header produces it (Ruby and Rice are
not in the header).  A boxed primitive holds a copy of the native value; a wrapped handle
refers to a native object and records the ownership flag it was created with; an array is an
ordered sequence of values. -/
inductive VALUE where
  | boolean (x : Bool)
  | integer (x : Int)
  | float (x : Double)
  | data (obj : Arg) (isOwner : Bool)
  | array (elems : List VALUE)

/-- One call of a primitive of Rice made by the header. -/
inductive Call where
  | convert (x : Arg) (isOwner : Option Bool)
  | push (v : VALUE)

/-- An exception raised through the host runtime. -/
structure HostError where
  code : Nat
  deriving DecidableEq

/-- The host: for the calls made so far and the call being made, the exception it raises, if
any. -/
structure Host where
  raises : List Call → Call → Option HostError

/-- A host on which every primitive succeeds. -/
def Host.reliable : Host := ⟨fun _ _ => none⟩

/-- No conversion and no append ever raises on this host. -/
def Host.neverRaises (h : Host) : Prop := ∀ log c, h.raises log c = none

/-- A computation against the host: from the host and the call log so far, the outcome
(a value or the exception raised) and the call log afterwards. -/
def Exec (α : Type) : Type := Host → List Call → Except HostError α × List Call

/-- Return without calling the host. -/
def Exec.pure {α : Type} (a : α) : Exec α := fun _ log => (.ok a, log)

/-- Sequencing; an exception ends the computation. -/
def Exec.bind {α β : Type} (m : Exec α) (f : α → Exec β) : Exec β := fun h log =>
  match m h log with
  | (.ok a, log1) => f a h log1
  | (.error e, log1) => (.error e, log1)

instance : Monad Exec where
  pure := Exec.pure
  bind := Exec.bind

/-- A host primitive: the call is logged, then it either raises or returns its result. -/
def Exec.primitive {α : Type} (c : Call) (result : α) : Exec α := fun h log =>
  match h.raises log c with
  | some e => (.error e, log ++ [c])
  | none => (.ok result, log ++ [c])

/-- The calls a computation adds to the log. -/
def Exec.calls {α : Type} (m : Exec α) (h : Host) (log : List Call) : List Call :=
  (m h log).2.drop log.length

/-! ## Rice -/

/-- Modelled from the spec: `Rice::detail::To_Ruby<bool>::convert(x)`, by value, no ownership
flag. -/
def Rice.detail.To_Ruby_bool.convert (x : Bool) : Exec VALUE :=
  Exec.primitive (.convert (.bool x) none) (.boolean x)

/-- Modelled from the spec: `Rice::detail::To_Ruby<int64_t>::convert(x)`, by value, no ownership
flag. -/
def Rice.detail.To_Ruby_int64_t.convert (x : Int) : Exec VALUE :=
  Exec.primitive (.convert (.int64_t x) none) (.integer x)

/-- Modelled from the spec: `Rice::detail::To_Ruby<double>::convert(x)`, by value, no ownership
flag. -/
def Rice.detail.To_Ruby_double.convert (x : Double) : Exec VALUE :=
  Exec.primitive (.convert (.double x) none) (.float x)

/-- Modelled from the spec: `Rice::detail::To_Ruby<torch::Tensor>::convert(x, isOwner)`, a
wrapped handle on the tensor `x` points to. -/
def Rice.detail.To_Ruby_Tensor.convert (x : Tensor) (isOwner : Bool) : Exec VALUE :=
  Exec.primitive (.convert (.Tensor x) (some isOwner)) (.data (.Tensor x) isOwner)

/-- Modelled from the spec: `Rice::detail::To_Ruby<torch::Scalar>::convert(x, isOwner)`. -/
def Rice.detail.To_Ruby_Scalar.convert (x : Scalar) (isOwner : Bool) : Exec VALUE :=
  Exec.primitive (.convert (.Scalar x) (some isOwner)) (.data (.Scalar x) isOwner)

/-- Modelled from the spec: `Rice::detail::To_Ruby<torch::ScalarType>::convert(x, isOwner)`. -/
def Rice.detail.To_Ruby_ScalarType.convert (x : ScalarType) (isOwner : Bool) : Exec VALUE :=
  Exec.primitive (.convert (.ScalarType x) (some isOwner)) (.data (.ScalarType x) isOwner)

/-- Modelled from the spec: `Rice::detail::To_Ruby<torch::QScheme>::convert(x, isOwner)`. -/
def Rice.detail.To_Ruby_QScheme.convert (x : QScheme) (isOwner : Bool) : Exec VALUE :=
  Exec.primitive (.convert (.QScheme x) (some isOwner)) (.data (.QScheme x) isOwner)

/-- Modelled from the spec: `Rice::Object`, a C++ wrapper around a `VALUE`. -/
structure Rice.Object where
  value : VALUE

/-- Modelled from the spec: `Rice::Array`, the C++ wrapper around a Ruby array; `elems` are the
elements of the Ruby array, first to last.  The declaration `Array a;` is `Rice.Array.mk []`,
the empty array; it is not one of the primitives the host may raise at. -/
structure Rice.Array where
  elems : List VALUE

/-- Modelled from the spec: `Rice::Array::push(obj)` appends `obj` after the last element. -/
def Rice.Array.push (a : Rice.Array) (obj : Rice.Object) : Exec Rice.Array :=
  Exec.primitive (.push obj.value) (Rice.Array.mk (a.elems ++ [obj.value]))

/-- Modelled from the spec: the conversion of a `Rice::Array` to `VALUE` at `return a;`. -/
def Rice.Array.value (a : Rice.Array) : VALUE := .array a.elems

/-! ## `wrap_outputs.h` -/

open Rice.detail

/-- The overload `wrap(bool x)`. -/
def wrap_bool (x : Bool) : Exec VALUE :=
  To_Ruby_bool.convert x

/-- The overload `wrap(int64_t x)`. -/
def wrap_int64_t (x : Int) : Exec VALUE :=
  To_Ruby_int64_t.convert x

/-- The overload `wrap(double x)`. -/
def wrap_double (x : Double) : Exec VALUE :=
  To_Ruby_double.convert x

/-- The overload `wrap(torch::Tensor x)`. -/
def wrap_Tensor (x : Tensor) : Exec VALUE :=
  To_Ruby_Tensor.convert x true

/-- The overload `wrap(torch::Scalar x)`. -/
def wrap_Scalar (x : Scalar) : Exec VALUE :=
  To_Ruby_Scalar.convert x true

/-- The overload `wrap(torch::ScalarType x)`. -/
def wrap_ScalarType (x : ScalarType) : Exec VALUE :=
  To_Ruby_ScalarType.convert x true

/-- The overload `wrap(torch::QScheme x)`. -/
def wrap_QScheme (x : QScheme) : Exec VALUE :=
  To_Ruby_QScheme.convert x true

/-- The overload `wrap(std::tuple<torch::Tensor, torch::Tensor> x)`. -/
def wrap_tuple_Tensor_Tensor (x : Tensor × Tensor) : Exec VALUE := do
  let a : Rice.Array := Rice.Array.mk []
  let a ← a.push (Rice.Object.mk (← To_Ruby_Tensor.convert x.1 true))
  let a ← a.push (Rice.Object.mk (← To_Ruby_Tensor.convert x.2 true))
  return a.value

/-- The overload `wrap(std::tuple<torch::Tensor, torch::Tensor, torch::Tensor> x)`. -/
def wrap_tuple_Tensor_Tensor_Tensor (x : Tensor × Tensor × Tensor) : Exec VALUE := do
  let a : Rice.Array := Rice.Array.mk []
  let a ← a.push (Rice.Object.mk (← To_Ruby_Tensor.convert x.1 true))
  let a ← a.push (Rice.Object.mk (← To_Ruby_Tensor.convert x.2.1 true))
  let a ← a.push (Rice.Object.mk (← To_Ruby_Tensor.convert x.2.2 true))
  return a.value

/-- The overload
`wrap(std::tuple<torch::Tensor, torch::Tensor, torch::Tensor, torch::Tensor> x)`. -/
def wrap_tuple_Tensor_Tensor_Tensor_Tensor (x : Tensor × Tensor × Tensor × Tensor) :
    Exec VALUE := do
  let a : Rice.Array := Rice.Array.mk []
  let a ← a.push (Rice.Object.mk (← To_Ruby_Tensor.convert x.1 true))
  let a ← a.push (Rice.Object.mk (← To_Ruby_Tensor.convert x.2.1 true))
  let a ← a.push (Rice.Object.mk (← To_Ruby_Tensor.convert x.2.2.1 true))
  let a ← a.push (Rice.Object.mk (← To_Ruby_Tensor.convert x.2.2.2 true))
  return a.value

/-- The overload
`wrap(std::tuple<torch::Tensor, torch::Tensor, torch::Tensor, torch::Tensor, torch::Tensor> x)`. -/
def wrap_tuple_Tensor_Tensor_Tensor_Tensor_Tensor
    (x : Tensor × Tensor × Tensor × Tensor × Tensor) : Exec VALUE := do
  let a : Rice.Array := Rice.Array.mk []
  let a ← a.push (Rice.Object.mk (← To_Ruby_Tensor.convert x.1 true))
  let a ← a.push (Rice.Object.mk (← To_Ruby_Tensor.convert x.2.1 true))
  let a ← a.push (Rice.Object.mk (← To_Ruby_Tensor.convert x.2.2.1 true))
  let a ← a.push (Rice.Object.mk (← To_Ruby_Tensor.convert x.2.2.2.1 true))
  let a ← a.push (Rice.Object.mk (← To_Ruby_Tensor.convert x.2.2.2.2 true))
  return a.value

/-- The overload `wrap(std::tuple<torch::Tensor, torch::Tensor, torch::Tensor, int64_t> x)`. -/
def wrap_tuple_Tensor_Tensor_Tensor_int64_t (x : Tensor × Tensor × Tensor × Int) :
    Exec VALUE := do
  let a : Rice.Array := Rice.Array.mk []
  let a ← a.push (Rice.Object.mk (← To_Ruby_Tensor.convert x.1 true))
  let a ← a.push (Rice.Object.mk (← To_Ruby_Tensor.convert x.2.1 true))
  let a ← a.push (Rice.Object.mk (← To_Ruby_Tensor.convert x.2.2.1 true))
  let a ← a.push (Rice.Object.mk (← To_Ruby_int64_t.convert x.2.2.2))
  return a.value

/-- The overload `wrap(std::tuple<torch::Tensor, torch::Tensor, double, int64_t> x)`. -/
def wrap_tuple_Tensor_Tensor_double_int64_t (x : Tensor × Tensor × Double × Int) :
    Exec VALUE := do
  let a : Rice.Array := Rice.Array.mk []
  let a ← a.push (Rice.Object.mk (← To_Ruby_Tensor.convert x.1 true))
  let a ← a.push (Rice.Object.mk (← To_Ruby_Tensor.convert x.2.1 true))
  let a ← a.push (Rice.Object.mk (← To_Ruby_double.convert x.2.2.1))
  let a ← a.push (Rice.Object.mk (← To_Ruby_int64_t.convert x.2.2.2))
  return a.value

/-- The overload `wrap(torch::TensorList x)`. -/
def wrap_TensorList (x : TensorList) : Exec VALUE := do
  let mut a : Rice.Array := Rice.Array.mk []
  for t in x do
    a ← a.push (Rice.Object.mk (← To_Ruby_Tensor.convert t true))
  return a.value

/-- The overload `wrap(std::tuple<double, double> x)`. -/
def wrap_tuple_double_double (x : Double × Double) : Exec VALUE := do
  let a : Rice.Array := Rice.Array.mk []
  let a ← a.push (Rice.Object.mk (← To_Ruby_double.convert x.1))
  let a ← a.push (Rice.Object.mk (← To_Ruby_double.convert x.2))
  return a.value

/-! ## The overload set -/

/-- An argument of one of the fifteen overloads of `wrap`, one constructor for each overload in
the order of the header. -/
inductive WrapArg where
  | bool (x : Bool)
  | int64_t (x : Int)
  | double (x : Double)
  | Tensor (x : Tensor)
  | Scalar (x : Scalar)
  | ScalarType (x : ScalarType)
  | QScheme (x : QScheme)
  | tuple2 (x : Tensor × Tensor)
  | tuple3 (x : Tensor × Tensor × Tensor)
  | tuple4 (x : Tensor × Tensor × Tensor × Tensor)
  | tuple5 (x : Tensor × Tensor × Tensor × Tensor × Tensor)
  | tuple_TTTi (x : Tensor × Tensor × Tensor × Int)
  | tuple_TTdi (x : Tensor × Tensor × Double × Int)
  | TensorList (x : TensorList)
  | tuple_dd (x : Double × Double)

/-- The body `wrap` runs on an argument of one of its overloads. -/
def WrapArg.wrap : WrapArg → Exec VALUE
  | .bool x => wrap_bool x
  | .int64_t x => wrap_int64_t x
  | .double x => wrap_double x
  | .Tensor x => wrap_Tensor x
  | .Scalar x => wrap_Scalar x
  | .ScalarType x => wrap_ScalarType x
  | .QScheme x => wrap_QScheme x
  | .tuple2 x => wrap_tuple_Tensor_Tensor x
  | .tuple3 x => wrap_tuple_Tensor_Tensor_Tensor x
  | .tuple4 x => wrap_tuple_Tensor_Tensor_Tensor_Tensor x
  | .tuple5 x => wrap_tuple_Tensor_Tensor_Tensor_Tensor_Tensor x
  | .tuple_TTTi x => wrap_tuple_Tensor_Tensor_Tensor_int64_t x
  | .tuple_TTdi x => wrap_tuple_Tensor_Tensor_double_int64_t x
  | .TensorList x => wrap_TensorList x
  | .tuple_dd x => wrap_tuple_double_double x

/-- A native value of a type built from the types the header mentions: the seven singular
types, `TensorList`, and `std::tuple` of them. -/
inductive Native where
  | bool (x : Bool)
  | int64_t (x : Int)
  | double (x : Double)
  | Tensor (x : Tensor)
  | Scalar (x : Scalar)
  | ScalarType (x : ScalarType)
  | QScheme (x : QScheme)
  | TensorList (x : TensorList)
  | tuple (xs : List Native)

/-- The two value conversions of C++ between `int64_t` and `double` (floating-integral
conversions).  The header does not define them; they are parameters of overload resolution,
which holds for whatever they compute. -/
structure Arithmetic where
  toDouble : Int → Double
  toInt64 : Double → Int

/-- The implicit conversion of a value to `torch::Tensor`, the type of a tensor position of a
tuple parameter: only a `Tensor` converts (no number, enumeration, list or tuple does). -/
def Native.toTensor : Native → Option TorchRb.Tensor
  | .Tensor t => some t
  | .bool _ => none
  | .int64_t _ => none
  | .double _ => none
  | .Scalar _ => none
  | .ScalarType _ => none
  | .QScheme _ => none
  | .TensorList _ => none
  | .tuple _ => none

/-- The implicit conversion of a value to `int64_t`, the type of an integer position of a tuple
parameter: the arithmetic types convert (`bool` to 0 or 1, `double` by the floating-integral
conversion); `Scalar`, the scoped enumerations, tensors, lists and tuples do not. -/
def Native.toInt64 (cv : Arithmetic) : Native → Option Int
  | .int64_t n => some n
  | .bool b => some (if b then 1 else 0)
  | .double d => some (cv.toInt64 d)
  | .Tensor _ => none
  | .Scalar _ => none
  | .ScalarType _ => none
  | .QScheme _ => none
  | .TensorList _ => none
  | .tuple _ => none

/-- The implicit conversion of a value to `double`, the type of a double position of a tuple
parameter: the arithmetic types convert; nothing else does. -/
def Native.toDouble (cv : Arithmetic) : Native → Option Double
  | .double d => some d
  | .int64_t n => some (cv.toDouble n)
  | .bool b => some (cv.toDouble (if b then 1 else 0))
  | .Tensor _ => none
  | .Scalar _ => none
  | .ScalarType _ => none
  | .QScheme _ => none
  | .TensorList _ => none
  | .tuple _ => none

/-- The value has type `int64_t`, so its conversion to `int64_t` is the identity. -/
def Native.isInt64 : Native → Bool
  | .int64_t _ => true
  | .bool _ => false
  | .double _ => false
  | .Tensor _ => false
  | .Scalar _ => false
  | .ScalarType _ => false
  | .QScheme _ => false
  | .TensorList _ => false
  | .tuple _ => false

/-- The value has type `double`, so its conversion to `double` is the identity. -/
def Native.isDouble : Native → Bool
  | .double _ => true
  | .bool _ => false
  | .int64_t _ => false
  | .Tensor _ => false
  | .Scalar _ => false
  | .ScalarType _ => false
  | .QScheme _ => false
  | .TensorList _ => false
  | .tuple _ => false

/-- The viable tuple overloads for a `std::tuple` with the elements `xs`, in the order of the
header.  A tuple parameter is taken by value, so that `std::tuple` converts to it when it has
as many elements and every element converts to the element type at its position.  Each
candidate comes with its converted argument and with whether the conversion is the identity
(an exact match).  No tuple overload has 0, 1 or more than 5 elements. -/
def Native.tupleCandidates (cv : Arithmetic) (xs : List Native) : List (Bool × WrapArg) :=
  match xs with
  | [] => []
  | [_] => []
  | [a, b] =>
    (do let a1 ← a.toTensor
        let b1 ← b.toTensor
        pure (true, WrapArg.tuple2 (a1, b1))).toList ++
    (do let a1 ← a.toDouble cv
        let b1 ← b.toDouble cv
        pure (a.isDouble && b.isDouble, WrapArg.tuple_dd (a1, b1))).toList
  | [a, b, c] =>
    (do let a1 ← a.toTensor
        let b1 ← b.toTensor
        let c1 ← c.toTensor
        pure (true, WrapArg.tuple3 (a1, b1, c1))).toList
  | [a, b, c, d] =>
    (do let a1 ← a.toTensor
        let b1 ← b.toTensor
        let c1 ← c.toTensor
        let d1 ← d.toTensor
        pure (true, WrapArg.tuple4 (a1, b1, c1, d1))).toList ++
    (do let a1 ← a.toTensor
        let b1 ← b.toTensor
        let c1 ← c.toTensor
        let d1 ← d.toInt64 cv
        pure (d.isInt64, WrapArg.tuple_TTTi (a1, b1, c1, d1))).toList ++
    (do let a1 ← a.toTensor
        let b1 ← b.toTensor
        let c1 ← c.toDouble cv
        let d1 ← d.toInt64 cv
        pure (c.isDouble && d.isInt64, WrapArg.tuple_TTdi (a1, b1, c1, d1))).toList
  | [a, b, c, d, e] =>
    (do let a1 ← a.toTensor
        let b1 ← b.toTensor
        let c1 ← c.toTensor
        let d1 ← d.toTensor
        let e1 ← e.toTensor
        pure (true, WrapArg.tuple5 (a1, b1, c1, d1, e1))).toList
  | _ :: _ :: _ :: _ :: _ :: _ :: _ => []

/-- The best viable candidate: the exact match if there is one; otherwise the only viable
candidate; none when no candidate is viable or when several candidates are, each by a
conversion (the call is then ambiguous). -/
def selectOverload (cands : List (Bool × WrapArg)) : Option WrapArg :=
  match cands.find? (fun c => c.1) with
  | some c => some c.2
  | none =>
    match cands with
    | [] => none
    | [c] => some c.2
    | _ :: _ :: _ => none

/-- Overload resolution of a call `wrap(v)`; `none` when the call does not compile.  A value
of one of the seven singular types or of `TensorList` has an overload with exactly its type,
which is better than any overload reached by a conversion.  A `std::tuple` converts to no
singular parameter type and not to `TensorList`, so its candidates are the tuple overloads. -/
def Native.overload (cv : Arithmetic) : Native → Option WrapArg
  | .bool x => some (.bool x)
  | .int64_t x => some (.int64_t x)
  | .double x => some (.double x)
  | .Tensor x => some (.Tensor x)
  | .Scalar x => some (.Scalar x)
  | .ScalarType x => some (.ScalarType x)
  | .QScheme x => some (.QScheme x)
  | .TensorList x => some (.TensorList x)
  | .tuple xs => selectOverload (Native.tupleCandidates cv xs)

/-- The overloaded `wrap`: the computation of the overload selected for the value, `none` when
no overload accepts the value. -/
def wrap (cv : Arithmetic) (v : Native) : Option (Exec VALUE) :=
  (v.overload cv).map WrapArg.wrap

/-! ## Reading host values back -/

/-- Modelled from the spec: the extraction of a boxed boolean (the header has no extraction);
only a boxed boolean extracts as a boolean. -/
def VALUE.extract_bool : VALUE → Option Bool
  | .boolean x => some x
  | _ => none

/-- Modelled from the spec: the extraction of a boxed integer; only a boxed integer extracts as
an integer. -/
def VALUE.extract_int64_t : VALUE → Option Int
  | .integer x => some x
  | _ => none

/-- Modelled from the spec: the extraction of a boxed float; only a boxed float extracts as a
double. -/
def VALUE.extract_double : VALUE → Option Double
  | .float x => some x
  | _ => none

/-- Modelled from the spec: the tensor a wrapped handle refers to. -/
def VALUE.tensor : VALUE → Option Tensor
  | .data (.Tensor t) _ => some t
  | _ => none

/-- The call converts a native value. -/
def Call.isConvert : Call → Bool
  | .convert _ _ => true
  | .push _ => false

/-- The call appends to an array. -/
def Call.isPush : Call → Bool
  | .convert _ _ => false
  | .push _ => true

/-- The discipline of the header on ownership: an object (tensor, Scalar, ScalarType, QScheme)
is converted with the flag `true`, a primitive (bool, integer, double) with no flag. -/
def Call.ownershipOK : Call → Bool
  | .convert x flag => if x.isObject then flag == some true else flag == none
  | .push _ => true

/-- Every call the computation adds to the log satisfies `P`, and every exception it ends with
was raised by the host at the last call the computation added to the log. -/
def Exec.Respects {α : Type} (P : Call → Prop) (m : Exec α) : Prop :=
  ∀ (h : Host) (log : List Call),
    (∃ new, (m h log).2 = log ++ new ∧ ∀ c ∈ new, P c) ∧
      ∀ e, (m h log).1 = .error e →
        ∃ mid c, (m h log).2 = log ++ mid ++ [c] ∧ h.raises (log ++ mid) c = some e

/-- The wrapped handle of a tensor with ownership retained. -/
def Tensor.handle (t : Tensor) : VALUE := .data (.Tensor t) true

/-- The two calls `wrap(TensorList)` makes for one tensor: its conversion with the flag `true`,
then the append of the handle. -/
def Tensor.calls (t : Tensor) : List Call :=
  [.convert (.Tensor t) (some true), .push t.handle]

/-! ## The monad -/

theorem Exec.bind_def {α β : Type} (m : Exec α) (f : α → Exec β) : m >>= f = Exec.bind m f :=
  rfl

theorem Exec.pure_def {α : Type} (a : α) : (Pure.pure a : Exec α) = Exec.pure a := rfl

theorem Exec.pure_bind {α β : Type} (a : α) (f : α → Exec β) :
    Exec.bind (Exec.pure a) f = f a := rfl

theorem Exec.bind_assoc {α β γ : Type} (m : Exec α) (f : α → Exec β) (g : β → Exec γ) :
    Exec.bind (Exec.bind m f) g = Exec.bind m (fun a => Exec.bind (f a) g) := by
  funext h log
  unfold Exec.bind
  rcases m h log with ⟨e | a, log1⟩ <;> rfl

theorem Exec.bind_primitive {α β : Type} (c : Call) (r : α) (f : α → Exec β) (h : Host)
    (log : List Call) :
    Exec.bind (Exec.primitive c r) f h log =
      match h.raises log c with
      | some e => (.error e, log ++ [c])
      | none => f r h (log ++ [c]) := by
  unfold Exec.bind Exec.primitive
  cases h.raises log c <;> rfl

theorem Exec.primitive_ok {α : Type} (c : Call) (r : α) (h : Host) (hok : h.neverRaises)
    (log : List Call) : Exec.primitive c r h log = (.ok r, log ++ [c]) := by
  unfold Exec.primitive
  rw [hok log c]

theorem Exec.bind_ok {α β : Type} (m : Exec α) (f : α → Exec β) (h : Host)
    (log log1 : List Call) (a : α) (hm : m h log = (.ok a, log1)) :
    Exec.bind m f h log = f a h log1 := by
  unfold Exec.bind
  rw [hm]

/-! ## The loop of `wrap(TensorList)` -/

/-- On a host that never raises, a loop whose body converts the tensor and appends the handle
appends the handles of the whole list, in order, by the calls of each tensor in turn. -/
theorem forIn_push_ok (h : Host) (body : Tensor → Rice.Array → Exec (ForInStep Rice.Array))
    (hbody : ∀ t r log,
      body t r h log = (.ok (.yield (Rice.Array.mk (r.elems ++ [t.handle]))), log ++ t.calls))
    (x : List Tensor) (a : Rice.Array) (log : List Call) :
    forIn x a body h log =
      (.ok (Rice.Array.mk (a.elems ++ x.map Tensor.handle)), log ++ x.flatMap Tensor.calls) := by
  induction x generalizing a log with
  | nil => simp [Exec.pure_def, Exec.pure]
  | cons t ts ih =>
    rw [List.forIn_cons, Exec.bind_def, Exec.bind_ok _ _ _ _ _ _ (hbody t a log)]
    simp [ih]

theorem wrap_TensorList_ok (h : Host) (hok : h.neverRaises) (x : TensorList) (log : List Call) :
    wrap_TensorList x h log =
      (.ok (.array (x.map Tensor.handle)), log ++ x.flatMap Tensor.calls) := by
  unfold wrap_TensorList
  rw [Exec.bind_def, Exec.bind_ok _ _ _ _ _ _ (forIn_push_ok h _ _ x _ log)]
  · simp [Exec.pure_def, Exec.pure, Rice.Array.value]
  · intro t r log1
    simp [Exec.bind_def, Exec.pure_def, Exec.bind_assoc, Exec.pure_bind,
      To_Ruby_Tensor.convert, Rice.Array.push, Exec.bind_primitive, hok _ _, Exec.pure,
      Tensor.calls, Tensor.handle]

theorem Tensor.countP_isConvert_calls (x : List Tensor) :
    (x.flatMap Tensor.calls).countP Call.isConvert = x.length := by
  induction x with
  | nil => rfl
  | cons t ts ih =>
    rw [List.flatMap_cons, List.countP_append, ih, List.length_cons, Nat.add_comm]
    rfl

theorem Tensor.countP_isPush_calls (x : List Tensor) :
    (x.flatMap Tensor.calls).countP Call.isPush = x.length := by
  induction x with
  | nil => rfl
  | cons t ts ih =>
    rw [List.flatMap_cons, List.countP_append, ih, List.length_cons, Nat.add_comm]
    rfl

theorem Tensor.length_calls (x : List Tensor) :
    (x.flatMap Tensor.calls).length = 2 * x.length := by
  induction x with
  | nil => rfl
  | cons t ts ih =>
    rw [List.flatMap_cons, List.length_append, ih, List.length_cons]
    simp only [Tensor.calls, List.length_cons, List.length_nil]
    omega

/-! ## What every run of an overload respects -/

theorem Exec.respects_pure {α : Type} (P : Call → Prop) (a : α) :
    Exec.Respects P (Exec.pure a) := by
  intro h log
  refine ⟨⟨[], by simp [Exec.pure], by simp⟩, ?_⟩
  intro e he
  simp [Exec.pure] at he

theorem Exec.respects_primitive {α : Type} (P : Call → Prop) (c : Call) (hc : P c) (r : α) :
    Exec.Respects P (Exec.primitive c r) := by
  intro h log
  unfold Exec.primitive
  cases hr : h.raises log c with
  | none =>
    refine ⟨⟨[c], rfl, by simpa using hc⟩, ?_⟩
    intro e he
    simp at he
  | some e0 =>
    refine ⟨⟨[c], rfl, by simpa using hc⟩, ?_⟩
    intro e he
    simp only [Except.error.injEq] at he
    exact ⟨[], c, by simp, by simpa [hr] using he⟩

theorem Exec.respects_bind {α β : Type} (P : Call → Prop) (m : Exec α) (f : α → Exec β)
    (hm : Exec.Respects P m) (hf : ∀ a, Exec.Respects P (f a)) :
    Exec.Respects P (Exec.bind m f) := by
  intro h log
  obtain ⟨⟨new, hlog, hnew⟩, herr⟩ := hm h log
  unfold Exec.bind
  rcases hres : m h log with ⟨e | a, log1⟩
  · rw [hres] at hlog herr
    refine ⟨⟨new, hlog, hnew⟩, ?_⟩
    intro e1 he1
    simpa using herr e1 (by simpa using he1)
  · rw [hres] at hlog
    simp only at hlog
    obtain ⟨⟨new1, hlog1, hnew1⟩, herr1⟩ := hf a h log1
    refine ⟨⟨new ++ new1, ?_, ?_⟩, ?_⟩
    · show (f a h log1).2 = log ++ (new ++ new1)
      rw [hlog1, hlog, List.append_assoc]
    · intro c hc
      rcases List.mem_append.mp hc with hc | hc
      · exact hnew c hc
      · exact hnew1 c hc
    · intro e1 he1
      obtain ⟨mid, c, hfin, hc⟩ := herr1 e1 he1
      refine ⟨new ++ mid, c, ?_, ?_⟩
      · show (f a h log1).2 = log ++ (new ++ mid) ++ [c]
        rw [hfin, hlog]
        simp
      · rw [← List.append_assoc, ← hlog]
        exact hc

theorem Exec.respects_forIn {α β : Type} (P : Call → Prop)
    (body : α → β → Exec (ForInStep β))
    (hbody : ∀ a b, Exec.Respects P (body a b)) (x : List α) (b : β) :
    Exec.Respects P (forIn x b body) := by
  induction x generalizing b with
  | nil =>
    rw [List.forIn_nil]
    exact Exec.respects_pure P b
  | cons a as ih =>
    rw [List.forIn_cons]
    refine Exec.respects_bind P _ _ (hbody a b) ?_
    intro r
    cases r with
    | done b1 => exact Exec.respects_pure P b1
    | yield b1 => exact ih b1

theorem Exec.respects_ownership {α : Type} (c : Call) (hc : c.ownershipOK = true) (r : α) :
    Exec.Respects (fun c => c.ownershipOK = true) (Exec.primitive c r) :=
  Exec.respects_primitive (fun c => c.ownershipOK = true) c hc r

theorem To_Ruby_Tensor_respects (t : Tensor) :
    Exec.Respects (fun c => c.ownershipOK = true) (To_Ruby_Tensor.convert t true) := by
  apply Exec.respects_ownership
  rfl

theorem To_Ruby_int64_t_respects (n : Int) :
    Exec.Respects (fun c => c.ownershipOK = true) (To_Ruby_int64_t.convert n) := by
  apply Exec.respects_ownership
  rfl

theorem To_Ruby_double_respects (d : Double) :
    Exec.Respects (fun c => c.ownershipOK = true) (To_Ruby_double.convert d) := by
  apply Exec.respects_ownership
  rfl

theorem push_respects (a : Rice.Array) (obj : Rice.Object) :
    Exec.Respects (fun c => c.ownershipOK = true) (a.push obj) := by
  apply Exec.respects_ownership
  rfl

/-- Every overload of `wrap` converts objects with the flag `true` and primitives with no flag,
on every host, and ends with an exception only when the host raised it. -/
theorem WrapArg.wrap_respects (w : WrapArg) :
    Exec.Respects (fun c => c.ownershipOK = true) w.wrap := by
  cases w with
  | TensorList x =>
    refine Exec.respects_bind _ _ _ (Exec.respects_forIn _ _ ?_ x _) ?_
    · intro t r
      refine Exec.respects_bind _ _ _ (To_Ruby_Tensor_respects t) ?_
      intro v
      refine Exec.respects_bind _ _ _ (push_respects _ _) ?_
      intro a1
      exact Exec.respects_bind _ _ _ (Exec.respects_pure _ _) (fun _ => Exec.respects_pure _ _)
    · intro a1
      exact Exec.respects_pure _ _
  | bool x => apply Exec.respects_ownership; rfl
  | int64_t x => apply Exec.respects_ownership; rfl
  | double x => apply Exec.respects_ownership; rfl
  | Tensor x => apply Exec.respects_ownership; rfl
  | Scalar x => apply Exec.respects_ownership; rfl
  | ScalarType x => apply Exec.respects_ownership; rfl
  | QScheme x => apply Exec.respects_ownership; rfl
  | tuple2 x | tuple3 x | tuple4 x | tuple5 x | tuple_TTTi x | tuple_TTdi x | tuple_dd x =>
    repeat first
      | exact Exec.respects_pure _ _
      | refine Exec.respects_bind _ _ _ (To_Ruby_Tensor_respects _) (fun _ => ?_)
      | refine Exec.respects_bind _ _ _ (To_Ruby_int64_t_respects _) (fun _ => ?_)
      | refine Exec.respects_bind _ _ _ (To_Ruby_double_respects _) (fun _ => ?_)
      | refine Exec.respects_bind _ _ _ (push_respects _ _) (fun _ => ?_)

/-! ## Arrays of tensors -/

/-- C1: on a host whose primitives succeed, `wrap(TensorList)` of `[t0,...,tn-1]` returns a host
array of exactly `n` elements, element `i` being the handle `To_Ruby<Tensor>::convert(ti, true)`
produces, which refers to `ti`, in the order of the input; the empty list gives the empty
array. -/
theorem wrap_TensorList_elementwise (h : Host) (hok : h.neverRaises) (log : List Call)
    (x : TensorList) :
    ∃ elems : List VALUE,
      (wrap_TensorList x h log).1 = .ok (.array elems) ∧
      elems.length = x.length ∧
      (∀ i (hi : i < x.length),
        elems[i]? = some (.data (.Tensor (x.get ⟨i, hi⟩)) true) ∧
        (To_Ruby_Tensor.convert (x.get ⟨i, hi⟩) true h log).1 =
          .ok (.data (.Tensor (x.get ⟨i, hi⟩)) true) ∧
        (elems[i]?.bind VALUE.tensor) = some (x.get ⟨i, hi⟩)) ∧
      (x = [] → elems = []) := by
  refine ⟨x.map Tensor.handle, ?_, by simp, ?_, ?_⟩
  · rw [wrap_TensorList_ok h hok]
  · intro i hi
    refine ⟨?_, ?_, ?_⟩
    · simp [List.getElem?_map, List.getElem?_eq_getElem hi, Tensor.handle]
    · simp [To_Ruby_Tensor.convert, Exec.primitive_ok _ _ h hok]
    · simp [List.getElem?_map, List.getElem?_eq_getElem hi, Tensor.handle, VALUE.tensor]
  · intro hx
    simp [hx]

theorem wrap_TensorList_elementwise_witness :
    Host.reliable.neverRaises ∧
      ∃ elems : List VALUE,
        (wrap_TensorList [⟨4⟩, ⟨9⟩] Host.reliable []).1 = .ok (.array elems) ∧
        elems.length = [Tensor.mk 4, Tensor.mk 9].length ∧
        (∀ i (hi : i < [Tensor.mk 4, Tensor.mk 9].length),
          elems[i]? = some (.data (.Tensor ([Tensor.mk 4, Tensor.mk 9].get ⟨i, hi⟩)) true) ∧
          (To_Ruby_Tensor.convert ([Tensor.mk 4, Tensor.mk 9].get ⟨i, hi⟩) true
            Host.reliable []).1 =
              .ok (.data (.Tensor ([Tensor.mk 4, Tensor.mk 9].get ⟨i, hi⟩)) true) ∧
          (elems[i]?.bind VALUE.tensor) = some ([Tensor.mk 4, Tensor.mk 9].get ⟨i, hi⟩)) ∧
        ([Tensor.mk 4, Tensor.mk 9] = [] → elems = []) :=
  ⟨fun _ _ => rfl, wrap_TensorList_elementwise Host.reliable (fun _ _ => rfl) [] [⟨4⟩, ⟨9⟩]⟩

/-- C2: on a host whose primitives succeed, `wrap` of a tuple of `N` tensors, `N` from 2 to 5,
returns the host array of exactly `N` elements whose element `i` is the handle of component
`i`, left to right. -/
theorem wrap_tuple_of_Tensors (h : Host) (hok : h.neverRaises) (log : List Call) :
    (∀ x : Tensor × Tensor,
      (wrap_tuple_Tensor_Tensor x h log).1 =
        .ok (.array [.data (.Tensor x.1) true, .data (.Tensor x.2) true])) ∧
    (∀ x : Tensor × Tensor × Tensor,
      (wrap_tuple_Tensor_Tensor_Tensor x h log).1 =
        .ok (.array [.data (.Tensor x.1) true, .data (.Tensor x.2.1) true,
          .data (.Tensor x.2.2) true])) ∧
    (∀ x : Tensor × Tensor × Tensor × Tensor,
      (wrap_tuple_Tensor_Tensor_Tensor_Tensor x h log).1 =
        .ok (.array [.data (.Tensor x.1) true, .data (.Tensor x.2.1) true,
          .data (.Tensor x.2.2.1) true, .data (.Tensor x.2.2.2) true])) ∧
    (∀ x : Tensor × Tensor × Tensor × Tensor × Tensor,
      (wrap_tuple_Tensor_Tensor_Tensor_Tensor_Tensor x h log).1 =
        .ok (.array [.data (.Tensor x.1) true, .data (.Tensor x.2.1) true,
          .data (.Tensor x.2.2.1) true, .data (.Tensor x.2.2.2.1) true,
          .data (.Tensor x.2.2.2.2) true])) := by
  refine ⟨?_, ?_, ?_, ?_⟩ <;> intro x
  · simp [wrap_tuple_Tensor_Tensor, Exec.bind_def, Exec.pure_def, Exec.bind_assoc,
      Exec.pure_bind, To_Ruby_Tensor.convert, Rice.Array.push, Exec.bind_primitive, hok _ _,
      Exec.pure, Rice.Array.value]
  · simp [wrap_tuple_Tensor_Tensor_Tensor, Exec.bind_def, Exec.pure_def, Exec.bind_assoc,
      Exec.pure_bind, To_Ruby_Tensor.convert, Rice.Array.push, Exec.bind_primitive, hok _ _,
      Exec.pure, Rice.Array.value]
  · simp [wrap_tuple_Tensor_Tensor_Tensor_Tensor, Exec.bind_def, Exec.pure_def, Exec.bind_assoc,
      Exec.pure_bind, To_Ruby_Tensor.convert, Rice.Array.push, Exec.bind_primitive, hok _ _,
      Exec.pure, Rice.Array.value]
  · simp [wrap_tuple_Tensor_Tensor_Tensor_Tensor_Tensor, Exec.bind_def, Exec.pure_def,
      Exec.bind_assoc, Exec.pure_bind, To_Ruby_Tensor.convert, Rice.Array.push,
      Exec.bind_primitive, hok _ _, Exec.pure, Rice.Array.value]

theorem wrap_tuple_of_Tensors_witness :
    Host.reliable.neverRaises ∧
      (wrap_tuple_Tensor_Tensor_Tensor (⟨5⟩, ⟨3⟩, ⟨8⟩) Host.reliable []).1 =
        .ok (.array [.data (.Tensor ⟨5⟩) true, .data (.Tensor ⟨3⟩) true,
          .data (.Tensor ⟨8⟩) true]) :=
  ⟨fun _ _ => rfl,
    (wrap_tuple_of_Tensors Host.reliable (fun _ _ => rfl) []).2.1 (⟨5⟩, ⟨3⟩, ⟨8⟩)⟩

/-- C3: on a host whose primitives succeed, the three tuple overloads with elements that are not
all tensors convert position by position, each element by the converter of its own type:
`(a, b, c, n)` gives `[handle a, handle b, handle c, boxed integer n]`, `(a, b, d, n)` gives
`[handle a, handle b, boxed double d, boxed integer n]`, `(d0, d1)` gives
`[boxed double d0, boxed double d1]`; the calls made are the conversions of the elements, a
tensor with the flag `true`, an integer as `int64_t`, a double as `double`, each followed by
its append. -/
theorem wrap_tuple_mixed_positional (h : Host) (hok : h.neverRaises) (log : List Call) :
    (∀ (a b c : Tensor) (n : Int),
      wrap_tuple_Tensor_Tensor_Tensor_int64_t (a, b, c, n) h log =
        (.ok (.array [.data (.Tensor a) true, .data (.Tensor b) true, .data (.Tensor c) true,
            .integer n]),
          log ++ [.convert (.Tensor a) (some true), .push (.data (.Tensor a) true),
            .convert (.Tensor b) (some true), .push (.data (.Tensor b) true),
            .convert (.Tensor c) (some true), .push (.data (.Tensor c) true),
            .convert (.int64_t n) none, .push (.integer n)])) ∧
    (∀ (a b : Tensor) (d : Double) (n : Int),
      wrap_tuple_Tensor_Tensor_double_int64_t (a, b, d, n) h log =
        (.ok (.array [.data (.Tensor a) true, .data (.Tensor b) true, .float d, .integer n]),
          log ++ [.convert (.Tensor a) (some true), .push (.data (.Tensor a) true),
            .convert (.Tensor b) (some true), .push (.data (.Tensor b) true),
            .convert (.double d) none, .push (.float d),
            .convert (.int64_t n) none, .push (.integer n)])) ∧
    (∀ d0 d1 : Double,
      wrap_tuple_double_double (d0, d1) h log =
        (.ok (.array [.float d0, .float d1]),
          log ++ [.convert (.double d0) none, .push (.float d0),
            .convert (.double d1) none, .push (.float d1)])) := by
  refine ⟨?_, ?_, ?_⟩
  · intro a b c n
    simp [wrap_tuple_Tensor_Tensor_Tensor_int64_t, Exec.bind_def, Exec.pure_def,
      Exec.bind_assoc, Exec.pure_bind, To_Ruby_Tensor.convert, To_Ruby_int64_t.convert,
      Rice.Array.push, Exec.bind_primitive, hok _ _, Exec.pure, Rice.Array.value]
  · intro a b d n
    simp [wrap_tuple_Tensor_Tensor_double_int64_t, Exec.bind_def, Exec.pure_def,
      Exec.bind_assoc, Exec.pure_bind, To_Ruby_Tensor.convert, To_Ruby_int64_t.convert,
      To_Ruby_double.convert, Rice.Array.push, Exec.bind_primitive, hok _ _, Exec.pure,
      Rice.Array.value]
  · intro d0 d1
    simp [wrap_tuple_double_double, Exec.bind_def, Exec.pure_def, Exec.bind_assoc,
      Exec.pure_bind, To_Ruby_double.convert, Rice.Array.push, Exec.bind_primitive, hok _ _,
      Exec.pure, Rice.Array.value]

theorem wrap_tuple_mixed_positional_witness :
    Host.reliable.neverRaises ∧
      wrap_tuple_Tensor_Tensor_double_int64_t (⟨1⟩, ⟨2⟩, ⟨4611686018427387904⟩, -3)
          Host.reliable [] =
        (.ok (.array [.data (.Tensor ⟨1⟩) true, .data (.Tensor ⟨2⟩) true,
            .float ⟨4611686018427387904⟩, .integer (-3)]),
          [] ++ [.convert (.Tensor ⟨1⟩) (some true), .push (.data (.Tensor ⟨1⟩) true),
            .convert (.Tensor ⟨2⟩) (some true), .push (.data (.Tensor ⟨2⟩) true),
            .convert (.double ⟨4611686018427387904⟩) none,
            .push (.float ⟨4611686018427387904⟩),
            .convert (.int64_t (-3)) none, .push (.integer (-3))]) :=
  ⟨fun _ _ => rfl,
    (wrap_tuple_mixed_positional Host.reliable (fun _ _ => rfl) []).2.1 ⟨1⟩ ⟨2⟩
      ⟨4611686018427387904⟩ (-3)⟩

/-! ## Singular values -/

/-- C4: on a host whose primitives succeed, `wrap` of a bool, of a 64-bit integer and of a
double returns a boxed value of the same kind that extracts back to the input: a bool is boxed
as a boolean (not as an integer or a float), an integer as an integer, a double as a float. -/
theorem wrap_scalar_roundtrip (h : Host) (hok : h.neverRaises) (log : List Call) :
    (∀ x : Bool, ∃ v, (wrap_bool x h log).1 = .ok v ∧ v = .boolean x ∧
      v.extract_bool = some x ∧ v.extract_int64_t = none ∧ v.extract_double = none) ∧
    (∀ x : Int, ∃ v, (wrap_int64_t x h log).1 = .ok v ∧ v = .integer x ∧
      v.extract_int64_t = some x ∧ v.extract_bool = none ∧ v.extract_double = none) ∧
    (∀ x : Double, ∃ v, (wrap_double x h log).1 = .ok v ∧ v = .float x ∧
      v.extract_double = some x ∧ v.extract_bool = none ∧ v.extract_int64_t = none) := by
  refine ⟨?_, ?_, ?_⟩ <;> intro x
  · exact ⟨.boolean x, by simp [wrap_bool, To_Ruby_bool.convert, Exec.primitive_ok _ _ h hok],
      rfl, rfl, rfl, rfl⟩
  · exact ⟨.integer x,
      by simp [wrap_int64_t, To_Ruby_int64_t.convert, Exec.primitive_ok _ _ h hok],
      rfl, rfl, rfl, rfl⟩
  · exact ⟨.float x, by simp [wrap_double, To_Ruby_double.convert, Exec.primitive_ok _ _ h hok],
      rfl, rfl, rfl, rfl⟩

theorem wrap_scalar_roundtrip_witness :
    Host.reliable.neverRaises ∧
      ∃ v, (wrap_int64_t (-9223372036854775808) Host.reliable []).1 = .ok v ∧
        v = .integer (-9223372036854775808) ∧
        v.extract_int64_t = some (-9223372036854775808) ∧ v.extract_bool = none ∧
        v.extract_double = none :=
  ⟨fun _ _ => rfl,
    (wrap_scalar_roundtrip Host.reliable (fun _ _ => rfl) []).2.1 (-9223372036854775808)⟩

/-- C5: on a host whose primitives succeed, `wrap(t)` returns a handle whose referent is the
tensor `t` itself; two handles of the same tensor have the same referent, and handles of two
different tensors have different referents. -/
theorem wrap_Tensor_same_referent (h : Host) (hok : h.neverRaises) :
    (∀ (t : Tensor) (log : List Call),
      ∃ v, (wrap_Tensor t h log).1 = .ok v ∧ v.tensor = some t) ∧
    (∀ (t : Tensor) (log1 log2 : List Call) (v1 v2 : VALUE),
      (wrap_Tensor t h log1).1 = .ok v1 → (wrap_Tensor t h log2).1 = .ok v2 →
        v1.tensor = v2.tensor ∧ v1.tensor = some t) ∧
    (∀ (t u : Tensor) (log1 log2 : List Call) (v1 v2 : VALUE), t ≠ u →
      (wrap_Tensor t h log1).1 = .ok v1 → (wrap_Tensor u h log2).1 = .ok v2 →
        v1.tensor ≠ v2.tensor) := by
  have key : ∀ (t : Tensor) (log : List Call),
      (wrap_Tensor t h log).1 = .ok (.data (.Tensor t) true) := by
    intro t log
    simp [wrap_Tensor, To_Ruby_Tensor.convert, Exec.primitive_ok _ _ h hok]
  refine ⟨?_, ?_, ?_⟩
  · intro t log
    exact ⟨_, key t log, rfl⟩
  · intro t log1 log2 v1 v2 h1 h2
    rw [key] at h1 h2
    cases h1
    cases h2
    exact ⟨rfl, rfl⟩
  · intro t u log1 log2 v1 v2 htu h1 h2
    rw [key] at h1 h2
    cases h1
    cases h2
    simpa [VALUE.tensor] using htu

theorem wrap_Tensor_same_referent_witness :
    Host.reliable.neverRaises ∧
      ∃ v, (wrap_Tensor ⟨17⟩ Host.reliable []).1 = .ok v ∧ v.tensor = some ⟨17⟩ :=
  ⟨fun _ _ => rfl, (wrap_Tensor_same_referent Host.reliable (fun _ _ => rfl)).1 ⟨17⟩ []⟩

/-! ## Ownership -/

/-- C6: on every host, every conversion an overload of `wrap` performs is a conversion of an
object (tensor, Scalar, ScalarType, QScheme) with the ownership flag `true` or a conversion of
a primitive (bool, integer, double) with no flag; none has the flag `false`.  The four
singular overloads on objects make exactly one call, the conversion with the flag `true`. -/
theorem wrap_converts_with_ownership (h : Host) (log : List Call) :
    (∀ w : WrapArg, ∃ new, (w.wrap h log).2 = log ++ new ∧
      ∀ c ∈ new, ∀ x flag, c = .convert x flag →
        (x.isObject = true → flag = some true) ∧ (x.isObject = false → flag = none) ∧
          flag ≠ some false) ∧
    (∀ x : Tensor, (wrap_Tensor x h log).2 = log ++ [.convert (.Tensor x) (some true)]) ∧
    (∀ x : Scalar, (wrap_Scalar x h log).2 = log ++ [.convert (.Scalar x) (some true)]) ∧
    (∀ x : ScalarType,
      (wrap_ScalarType x h log).2 = log ++ [.convert (.ScalarType x) (some true)]) ∧
    (∀ x : QScheme, (wrap_QScheme x h log).2 = log ++ [.convert (.QScheme x) (some true)]) := by
  refine ⟨?_, ?_, ?_, ?_, ?_⟩
  · intro w
    obtain ⟨⟨new, hlog, hnew⟩, _⟩ := WrapArg.wrap_respects w h log
    refine ⟨new, hlog, ?_⟩
    intro c hc x flag hcx
    have hok := hnew c hc
    subst hcx
    cases hx : x.isObject <;> simp [Call.ownershipOK, hx] at hok <;> simp [hok]
  · intro x
    simp only [wrap_Tensor, To_Ruby_Tensor.convert, Exec.primitive]
    cases h.raises log (.convert (.Tensor x) (some true)) <;> rfl
  · intro x
    simp only [wrap_Scalar, To_Ruby_Scalar.convert, Exec.primitive]
    cases h.raises log (.convert (.Scalar x) (some true)) <;> rfl
  · intro x
    simp only [wrap_ScalarType, To_Ruby_ScalarType.convert, Exec.primitive]
    cases h.raises log (.convert (.ScalarType x) (some true)) <;> rfl
  · intro x
    simp only [wrap_QScheme, To_Ruby_QScheme.convert, Exec.primitive]
    cases h.raises log (.convert (.QScheme x) (some true)) <;> rfl

/-! ## The tuple shapes -/

/-- A tuple of two 64-bit integers is accepted by `wrap`: it converts element by element to
the parameter of the `(double, double)` overload, the only viable one. -/
theorem wrap_tuple_int64_t_int64_t (cv : Arithmetic) (m n : Int) :
    wrap cv (.tuple [.int64_t m, .int64_t n]) =
      some (wrap_tuple_double_double (cv.toDouble m, cv.toDouble n)) := rfl

/-- A tuple of two tensors and two 64-bit integers is accepted by `wrap`: the integer at the
double position converts, so the `(Tensor, Tensor, double, int64_t)` overload is the only
viable one. -/
theorem wrap_tuple_Tensor_Tensor_int64_t_int64_t (cv : Arithmetic) (a b : Tensor) (m n : Int) :
    wrap cv (.tuple [.Tensor a, .Tensor b, .int64_t m, .int64_t n]) =
      some (wrap_tuple_Tensor_Tensor_double_int64_t (a, b, cv.toDouble m, n)) := rfl

/-- The overload with three tensors is the only one with three elements, so a tuple of three
elements has a viable overload exactly when its three elements convert to `Tensor`. -/
theorem tupleCandidates_three (cv : Arithmetic) (x y z : Native) :
    Native.tupleCandidates cv [x, y, z] ≠ [] ↔
      ∃ a b c, x.toTensor = some a ∧ y.toTensor = some b ∧ z.toTensor = some c := by
  unfold Native.tupleCandidates
  cases hx : x.toTensor <;> cases hy : y.toTensor <;> cases hz : z.toTensor <;>
    simp [hx, hy, hz]

/-- At most one tuple overload is viable for a tuple, so a call of `wrap` on a tuple is never
ambiguous: it runs its viable overload or it has none. -/
theorem tupleCandidates_length_le_one (cv : Arithmetic) (xs : List Native) :
    (Native.tupleCandidates cv xs).length ≤ 1 := by
  rcases xs with _ | ⟨a, _ | ⟨b, _ | ⟨c, _ | ⟨d, _ | ⟨e, _ | ⟨f, t⟩⟩⟩⟩⟩⟩
  · simp [Native.tupleCandidates]
  · simp [Native.tupleCandidates]
  · cases a <;> simp [Native.tupleCandidates, Native.toTensor, Native.toDouble] <;>
      cases b <;> simp [Native.toTensor, Native.toDouble]
  · unfold Native.tupleCandidates
    cases ha : a.toTensor <;> cases hb : b.toTensor <;> cases hc : c.toTensor <;>
      simp [ha, hb, hc]
  · unfold Native.tupleCandidates
    cases ha : a.toTensor <;> cases hb : b.toTensor <;> simp [ha, hb]
    cases c <;> simp [Native.toTensor, Native.toDouble] <;>
      cases d <;> simp [Native.toTensor, Native.toInt64]
  · unfold Native.tupleCandidates
    cases ha : a.toTensor <;> cases hb : b.toTensor <;> cases hc : c.toTensor <;>
      cases hd : d.toTensor <;> cases he : e.toTensor <;> simp [ha, hb, hc, hd, he]
  · simp [Native.tupleCandidates]

/-- C7, as the claim states it, fails: whatever the arithmetic conversions are, no overload of
`wrap` accepts the tuple `(A, B, 7)` of shape (tensor, tensor, 64-bit integer), so `wrap` of it
returns no array of size 3 whose element 2 extracts to 7. -/
theorem wrap_tuple_Tensor_Tensor_int64_t_not_viable :
    ¬ ∃ (cv : Arithmetic) (m : Exec VALUE),
      wrap cv (.tuple [.Tensor ⟨0⟩, .Tensor ⟨1⟩, .int64_t 7]) = some m ∧
        ∃ elems : List VALUE, (m Host.reliable []).1 = .ok (.array elems) ∧
          elems.length = 3 ∧ (elems[2]?.bind VALUE.extract_int64_t) = some 7 := by
  rintro ⟨cv, m, hm, _⟩
  cases hm

/-- C7, amended: a tuple `(A, B, x)` of two tensors and a third element is accepted by `wrap`
only when `x` is a tensor, because the one overload with three elements takes three tensors
and a 64-bit integer does not convert to a tensor; so `wrap` of `(A, B, 7)` has no viable
overload.  For the shape (tensor, tensor, tensor, 64-bit integer) and all tensors `A`, `B`,
`C`, on a host whose primitives succeed, `wrap` of `(A, B, C, 7)` returns the host array
`[wrap(A), wrap(B), wrap(C), wrap(7)]`, whose size is 4 and whose element at index 3 extracts
back to the integer 7. -/
theorem wrap_tuple_Tensor_Tensor_Tensor_seven (cv : Arithmetic) (h : Host)
    (hok : h.neverRaises) (log : List Call) (A B C : Tensor) :
    (Native.int64_t 7).toTensor = none ∧
    Native.tupleCandidates cv [.Tensor A, .Tensor B, .int64_t 7] = [] ∧
    wrap cv (.tuple [.Tensor A, .Tensor B, .int64_t 7]) = none ∧
    (∀ x : Native,
      (wrap cv (.tuple [.Tensor A, .Tensor B, x])).isSome = true ↔ ∃ T, x = .Tensor T) ∧
    ∃ (m : Exec VALUE) (vA vB vC v7 : VALUE),
      wrap cv (.tuple [.Tensor A, .Tensor B, .Tensor C, .int64_t 7]) = some m ∧
      (wrap_Tensor A h log).1 = .ok vA ∧ (wrap_Tensor B h log).1 = .ok vB ∧
      (wrap_Tensor C h log).1 = .ok vC ∧ (wrap_int64_t 7 h log).1 = .ok v7 ∧
      (m h log).1 = .ok (.array [vA, vB, vC, v7]) ∧
      [vA, vB, vC, v7].length = 4 ∧
      ([vA, vB, vC, v7][3]?.bind VALUE.extract_int64_t) = some 7 := by
  refine ⟨rfl, rfl, rfl, ?_, wrap_tuple_Tensor_Tensor_Tensor_int64_t (A, B, C, 7),
    .data (.Tensor A) true, .data (.Tensor B) true, .data (.Tensor C) true, .integer 7, rfl,
    ?_, ?_, ?_, ?_, ?_, rfl, rfl⟩
  · intro x
    cases x <;>
      simp [wrap, Native.overload, Native.tupleCandidates, selectOverload, Native.toTensor]
  · simp [wrap_Tensor, To_Ruby_Tensor.convert, Exec.primitive_ok _ _ h hok]
  · simp [wrap_Tensor, To_Ruby_Tensor.convert, Exec.primitive_ok _ _ h hok]
  · simp [wrap_Tensor, To_Ruby_Tensor.convert, Exec.primitive_ok _ _ h hok]
  · simp [wrap_int64_t, To_Ruby_int64_t.convert, Exec.primitive_ok _ _ h hok]
  · simp [wrap_tuple_Tensor_Tensor_Tensor_int64_t, Exec.bind_def, Exec.pure_def,
      Exec.bind_assoc, Exec.pure_bind, To_Ruby_Tensor.convert, To_Ruby_int64_t.convert,
      Rice.Array.push, Exec.bind_primitive, hok _ _, Exec.pure, Rice.Array.value]

theorem wrap_tuple_Tensor_Tensor_Tensor_seven_witness :
    Host.reliable.neverRaises ∧
      ((Native.int64_t 7).toTensor = none ∧
      Native.tupleCandidates ⟨fun n => ⟨n.toNat⟩, fun d => d.bits⟩
        [.Tensor ⟨10⟩, .Tensor ⟨11⟩, .int64_t 7] = [] ∧
      wrap ⟨fun n => ⟨n.toNat⟩, fun d => d.bits⟩
        (.tuple [.Tensor ⟨10⟩, .Tensor ⟨11⟩, .int64_t 7]) = none ∧
      (∀ x : Native,
        (wrap ⟨fun n => ⟨n.toNat⟩, fun d => d.bits⟩
          (.tuple [.Tensor ⟨10⟩, .Tensor ⟨11⟩, x])).isSome = true ↔ ∃ T, x = .Tensor T) ∧
      ∃ (m : Exec VALUE) (vA vB vC v7 : VALUE),
        wrap ⟨fun n => ⟨n.toNat⟩, fun d => d.bits⟩
          (.tuple [.Tensor ⟨10⟩, .Tensor ⟨11⟩, .Tensor ⟨12⟩, .int64_t 7]) = some m ∧
        (wrap_Tensor ⟨10⟩ Host.reliable []).1 = .ok vA ∧
        (wrap_Tensor ⟨11⟩ Host.reliable []).1 = .ok vB ∧
        (wrap_Tensor ⟨12⟩ Host.reliable []).1 = .ok vC ∧
        (wrap_int64_t 7 Host.reliable []).1 = .ok v7 ∧
        (m Host.reliable []).1 = .ok (.array [vA, vB, vC, v7]) ∧
        [vA, vB, vC, v7].length = 4 ∧
        ([vA, vB, vC, v7][3]?.bind VALUE.extract_int64_t) = some 7) :=
  ⟨fun _ _ => rfl,
    wrap_tuple_Tensor_Tensor_Tensor_seven ⟨fun n => ⟨n.toNat⟩, fun d => d.bits⟩ Host.reliable
      (fun _ _ => rfl) [] ⟨10⟩ ⟨11⟩ ⟨12⟩⟩

/-! ## Errors -/

/-- C8: `wrap` signals no error of its own.  On every host, an overload ends with an exception
only if the host raised that exception at a conversion or an append the overload called, and
that call is its last.  So on a host where every conversion and every append succeeds, every
overload returns a host value on every input, and `wrap(TensorList)` finishes after exactly one
conversion and one append for each element of the list, in the order of the list. -/
theorem wrap_no_error_of_its_own (h : Host) :
    (∀ (w : WrapArg) (log : List Call) (e : HostError),
      (w.wrap h log).1 = .error e →
        ∃ mid c, (w.wrap h log).2 = log ++ mid ++ [c] ∧ h.raises (log ++ mid) c = some e) ∧
    (h.neverRaises →
      (∀ (w : WrapArg) (log : List Call), ∃ v, (w.wrap h log).1 = .ok v) ∧
      (∀ (x : TensorList) (log : List Call),
        (wrap_TensorList x).calls h log =
            x.flatMap (fun t =>
              [.convert (.Tensor t) (some true), .push (.data (.Tensor t) true)]) ∧
          ((wrap_TensorList x).calls h log).countP Call.isConvert = x.length ∧
          ((wrap_TensorList x).calls h log).countP Call.isPush = x.length ∧
          ((wrap_TensorList x).calls h log).length = 2 * x.length)) := by
  refine ⟨fun w log e he => (WrapArg.wrap_respects w h log).2 e he, fun hok => ⟨?_, ?_⟩⟩
  · intro w log
    rcases hres : (w.wrap h log).1 with e | v
    · obtain ⟨mid, c, _, hc⟩ := (WrapArg.wrap_respects w h log).2 e hres
      rw [hok (log ++ mid) c] at hc
      cases hc
    · exact ⟨v, rfl⟩
  · intro x log
    have hcalls : (wrap_TensorList x).calls h log = x.flatMap Tensor.calls := by
      simp [Exec.calls, wrap_TensorList_ok h hok]
    rw [hcalls]
    exact ⟨rfl, Tensor.countP_isConvert_calls x, Tensor.countP_isPush_calls x,
      Tensor.length_calls x⟩

theorem wrap_no_error_of_its_own_witness :
    Host.reliable.neverRaises ∧
      ∃ v, ((WrapArg.TensorList [⟨1⟩, ⟨2⟩, ⟨3⟩]).wrap Host.reliable []).1 = .ok v :=
  ⟨fun _ _ => rfl,
    ((wrap_no_error_of_its_own Host.reliable).2 (fun _ _ => rfl)).1
      (.TensorList [⟨1⟩, ⟨2⟩, ⟨3⟩]) []⟩

/-! ## Tuples and lists -/

/-- C9: for `N` from 2 to 5 and all tensors, `wrap` of the tuple `(x0,...,xN-1)` and `wrap` of the
`TensorList` `[x0,...,xN-1]` are the same computation: on every host they make the same calls
and end with the same array, or with the same exception. -/
theorem wrap_tuple_eq_wrap_TensorList (a b c d e : Tensor) :
    wrap_tuple_Tensor_Tensor (a, b) = wrap_TensorList [a, b] ∧
    wrap_tuple_Tensor_Tensor_Tensor (a, b, c) = wrap_TensorList [a, b, c] ∧
    wrap_tuple_Tensor_Tensor_Tensor_Tensor (a, b, c, d) = wrap_TensorList [a, b, c, d] ∧
    wrap_tuple_Tensor_Tensor_Tensor_Tensor_Tensor (a, b, c, d, e) =
      wrap_TensorList [a, b, c, d, e] := by
  refine ⟨?_, ?_, ?_, ?_⟩
  · simp [wrap_tuple_Tensor_Tensor, wrap_TensorList, List.forIn_cons, List.forIn_nil,
      Exec.bind_def, Exec.pure_def, Exec.bind_assoc, Exec.pure_bind]
  · simp [wrap_tuple_Tensor_Tensor_Tensor, wrap_TensorList, List.forIn_cons, List.forIn_nil,
      Exec.bind_def, Exec.pure_def, Exec.bind_assoc, Exec.pure_bind]
  · simp [wrap_tuple_Tensor_Tensor_Tensor_Tensor, wrap_TensorList, List.forIn_cons,
      List.forIn_nil, Exec.bind_def, Exec.pure_def, Exec.bind_assoc, Exec.pure_bind]
  · simp [wrap_tuple_Tensor_Tensor_Tensor_Tensor_Tensor, wrap_TensorList, List.forIn_cons,
      List.forIn_nil, Exec.bind_def, Exec.pure_def, Exec.bind_assoc, Exec.pure_bind]

/-- C10: on a host whose primitives succeed, the array of `wrap(xs ++ ys)` is the array of
`wrap(xs)` followed by the array of `wrap(ys)`; the element produced for a tensor is a function
of that tensor alone: one function maps every list to its array, element by element. -/
theorem wrap_TensorList_append (h : Host) (hok : h.neverRaises) :
    (∀ (xs ys : TensorList) (log1 log2 log3 : List Call),
      ∃ as bs : List VALUE,
        (wrap_TensorList xs h log1).1 = .ok (.array as) ∧
        (wrap_TensorList ys h log2).1 = .ok (.array bs) ∧
        (wrap_TensorList (xs ++ ys) h log3).1 = .ok (.array (as ++ bs))) ∧
    (∃ f : Tensor → VALUE, ∀ (xs : TensorList) (log : List Call),
      (wrap_TensorList xs h log).1 = .ok (.array (xs.map f))) := by
  refine ⟨?_, Tensor.handle, ?_⟩
  · intro xs ys log1 log2 log3
    refine ⟨xs.map Tensor.handle, ys.map Tensor.handle, ?_, ?_, ?_⟩
    · rw [wrap_TensorList_ok h hok]
    · rw [wrap_TensorList_ok h hok]
    · rw [wrap_TensorList_ok h hok, List.map_append]
  · intro xs log
    rw [wrap_TensorList_ok h hok]

theorem wrap_TensorList_append_witness :
    Host.reliable.neverRaises ∧
      ∃ as bs : List VALUE,
        (wrap_TensorList [⟨1⟩, ⟨2⟩] Host.reliable []).1 = .ok (.array as) ∧
        (wrap_TensorList [⟨3⟩] Host.reliable []).1 = .ok (.array bs) ∧
        (wrap_TensorList ([⟨1⟩, ⟨2⟩] ++ [⟨3⟩]) Host.reliable []).1 = .ok (.array (as ++ bs)) :=
  ⟨fun _ _ => rfl,
    (wrap_TensorList_append Host.reliable (fun _ _ => rfl)).1 [⟨1⟩, ⟨2⟩] [⟨3⟩] [] [] []⟩

end TorchRb
